import Mathlib

/-!
# Verification of the oppvasp VASP parsers (src/vasp/parsers.py)

A shallow embedding of the parsing code in `src/vasp/parsers.py`:
the whole-document `VasprunParser`, the streaming `IterativeVasprunParser`,
the `FileIterator` line source and the `OutcarParser` log scanner.

Python exceptions are modelled by `PyError`; fallible code returns
`Except PyError _`.  Python floats are modelled exactly by `ℚ` (every value
the code manipulates comes from decimal text, so rationals are faithful for
the properties proved here).  The `re` patterns used by the code are
modelled by a small backtracking matcher (`reMatchAt` / `reSearch`) over the
exact token sequences of the source patterns.
-/

/-- Python exceptions raised by the code under study.  `lookupError` carries
the message string, since the source distinguishes some lookup failures only
by message. -/
inductive PyError where
  | nameError       -- NameError / UnboundLocalError: undefined name referenced
  | indexError      -- IndexError: sequence index out of range
  | typeError       -- TypeError
  | valueError      -- ValueError (e.g. float() on a bad literal)
  | lookupError (msg : String)  -- LookupError(msg)
  | xmlSyntaxError  -- lxml etree.XMLSyntaxError
  | systemExit (code : ℕ)       -- sys.exit(code)
deriving DecidableEq, Repr

/-- The *kind* of a Python exception: its class, with any message stripped.
Two failures are distinguishable "by error kind" iff their kinds differ. -/
inductive PyErrKind where
  | nameError | indexError | typeError | valueError
  | lookupError | xmlSyntaxError | systemExit
deriving DecidableEq, Repr

def PyError.kind : PyError → PyErrKind
  | .nameError => .nameError
  | .indexError => .indexError
  | .typeError => .typeError
  | .valueError => .valueError
  | .lookupError _ => .lookupError
  | .xmlSyntaxError => .xmlSyntaxError
  | .systemExit _ => .systemExit

/-- The kind of the error of a failed computation (`none` if it succeeded). -/
def errKind {α : Type} : Except PyError α → Option PyErrKind
  | .error e => some e.kind
  | .ok _ => none

/-! ## Basic Python string / number helpers -/

/-- Characters `str.split()` (no argument) splits on. -/
def isPySpace (c : Char) : Bool :=
  c = ' ' || c = '\t' || c = '\n' || c = '\r' || c = '\x0B' || c = '\x0C'

def isDigitCh (c : Char) : Bool := '0' ≤ c && c ≤ '9'

def pySplitAux : List Char → List Char → List (List Char)
  | [], acc => if acc.isEmpty then [] else [acc.reverse]
  | c :: cs, acc =>
    if isPySpace c then
      (if acc.isEmpty then pySplitAux cs [] else acc.reverse :: pySplitAux cs [])
    else pySplitAux cs (c :: acc)

/-- Python `s.split()` with no argument: split on whitespace runs, no empty
tokens. -/
def pySplit (s : List Char) : List (List Char) := pySplitAux s []

def digitsToNat (ds : List Char) : ℕ :=
  ds.foldl (fun a c => 10 * a + (c.toNat - 48)) 0

/-- Helper for `pyFloat?`: mantissa parts plus an optional exponent suffix. -/
def pyFloatExp (sgn : ℚ) (ip fp rest : List Char) : Option ℚ :=
  let mant : ℚ := sgn * ((digitsToNat ip : ℚ) + (digitsToNat fp : ℚ) / (10 ^ fp.length))
  match rest with
  | [] => some mant
  | e :: r =>
    if e = 'e' || e = 'E' then
      let (esgn, r2) : ℤ × List Char :=
        match r with
        | '-' :: rr => (-1, rr)
        | '+' :: rr => (1, rr)
        | rr => (1, rr)
      let ed := r2.takeWhile isDigitCh
      if ed.isEmpty || ed.length ≠ r2.length then none
      else some (mant * (10 : ℚ) ^ (esgn * (digitsToNat ed : ℤ)))
    else none

/-- Python `float(s)` on the strings arising from this code's regexp captures
(optional sign, decimal digits, optional fraction, optional exponent);
`none` models the ValueError raised on any other string. -/
def pyFloat? (s : List Char) : Option ℚ :=
  let (sgn, rest) : ℚ × List Char :=
    match s with
    | '-' :: r => (-1, r)
    | '+' :: r => (1, r)
    | r => (1, r)
  let ip := rest.takeWhile isDigitCh
  let rest2 := rest.drop ip.length
  match rest2 with
  | '.' :: r2 =>
    let fp := r2.takeWhile isDigitCh
    let rest3 := r2.drop fp.length
    if ip.isEmpty && fp.isEmpty then none else pyFloatExp sgn ip fp rest3
  | _ => if ip.isEmpty then none else pyFloatExp sgn ip [] rest2

/-- `float(s)` as an `Except`, raising ValueError on a bad literal. -/
def pyFloatE (s : List Char) : Except PyError ℚ :=
  match pyFloat? s with
  | some q => .ok q
  | none => .error .valueError

/-- Python list indexing `l[i]`: negative indices count from the end;
anything out of range raises IndexError. -/
def pyIndex {α : Type} (l : List α) (i : ℤ) : Except PyError α :=
  let j : ℤ := if i < 0 then i + l.length else i
  if h : 0 ≤ j ∧ j < l.length then
    .ok (l.get ⟨j.toNat, by omega⟩)
  else .error .indexError

/-- The control characters zapped by the source's sanitization regexps
`re.sub('[\x00-\x09\x0B-\x1F]','',s)` (myFile.read and VasprunParser.__init__):
0x00–0x09 and 0x0B–0x1F, i.e. everything below 0x20 except newline 0x0A. -/
def isZappedCtrl (c : Char) : Bool :=
  (c.toNat ≤ 0x09) || (0x0B ≤ c.toNat && c.toNat ≤ 0x1F)

/-- `re.sub('[\x00-\x09\x0B-\x1F]','',docstr)`: drop the zapped control
characters, keep everything else in order. -/
def pySanitize (s : List Char) : List Char := s.filter (fun c => !isZappedCtrl c)

/-! ## A mini regexp matcher

The source uses only patterns of the shape: literal pieces, `[ \t]*` gaps and
one-or-more character-class capture groups (`([0-9]+)`, `([0-9.\-]+)`,
`([0-9.\-E]+)`).  `reMatchAt` matches a token list at the start of a string
with Python's greedy-backtracking semantics, `reSearch` gives `re.search`'s
leftmost-match semantics. -/

inductive RTok where
  | lit (s : List Char)                 -- a literal piece of the pattern
  | star (cls : Char → Bool)            -- greedy `[...]*`, not captured
  | plusCap (cls : Char → Bool)         -- greedy capture group `([...]+)`

/-- Worker for `reMatchAt`, structurally recursive on a fuel that always
equals the token-list length (each step consumes one token and one unit of
fuel, so the fuel-exhausted branch is unreachable). -/
def reMatchAtF : ℕ → List RTok → List Char → Option (List (List Char))
  | _, [], _ => some []
  | 0, _ :: _, _ => none
  | f + 1, .lit s :: ts', cs =>
    if s.isPrefixOf cs then reMatchAtF f ts' (cs.drop s.length) else none
  | f + 1, .star cls :: ts', cs =>
    let m := (cs.takeWhile cls).length
    ((List.range (m + 1)).map (fun i => m - i)).findSome?
      (fun k => reMatchAtF f ts' (cs.drop k))
  | f + 1, .plusCap cls :: ts', cs =>
    let m := (cs.takeWhile cls).length
    ((List.range m).map (fun i => m - i)).findSome?
      (fun k => (reMatchAtF f ts' (cs.drop k)).map (fun caps => cs.take k :: caps))

/-- Match the token list at the start of `cs` (the match need not reach the
end).  Greedy quantifiers: the longest repetition is tried first, earlier
quantifiers backtrack only after all continuations fail. -/
def reMatchAt (ts : List RTok) (cs : List Char) : Option (List (List Char)) :=
  reMatchAtF ts.length ts cs

/-- `re.search`: try the pattern at every start position, leftmost first. -/
def reSearch (ts : List RTok) (cs : List Char) : Option (List (List Char)) :=
  match reMatchAt ts cs with
  | some caps => some caps
  | none =>
    match cs with
    | [] => none
    | _ :: rest => reSearch ts rest

/-- Character class `[ \t]`. -/
def wsCls (c : Char) : Bool := c = ' ' || c = '\t'

/-- Character class `[0-9.\-]`. -/
def numCls (c : Char) : Bool := isDigitCh c || c = '.' || c = '-'

/-- Character class `[0-9.\-E]`. -/
def numECls (c : Char) : Bool := numCls c || c = 'E'

/-! ## FileIterator (parsers.py lines 434–471)

The log parser's line source.  The underlying file is modelled as the list
of its lines, exactly as Python's `readlines`/`readline` would deliver them
(each line keeps its terminator).  `readline` returns `""` at end of file
and does not raise. -/

structure FIState where
  fileLines : List String   -- the underlying file, as a line list
  filepos : ℕ               -- read position of the open file handle, in lines
  cached : Bool
  contents : List String    -- `self.contents`, set only when cached
  numlines : ℕ              -- `self.numlines`, set only when cached
  lineno : ℤ
deriving DecidableEq, Repr

/-- `self.file.readline()`: next line, or `""` at EOF (no exception). -/
def fReadline (st : FIState) : String × FIState :=
  match st.fileLines.get? st.filepos with
  | some l => (l, { st with filepos := st.filepos + 1 })
  | none => ("", st)

namespace FileIterator

/-- `FileIterator.reset`. -/
def reset (st : FIState) : FIState :=
  let st := { st with lineno := -1 }
  if st.cached then st else { st with filepos := 0 }

/-- `FileIterator.__init__(filename, cache)`: open the file; in cached mode
read all lines at once (moving the handle to EOF); then `reset()`. -/
def init (fileLines : List String) (cache : Bool) : FIState :=
  let st : FIState :=
    { fileLines := fileLines, filepos := 0, cached := cache,
      contents := [], numlines := 0, lineno := 0 }
  let st :=
    if cache then
      { st with contents := fileLines, numlines := fileLines.length,
                filepos := fileLines.length }
    else st
  reset st

/-- `FileIterator.next`: returns `none` for `raise StopIteration`.  In
non-cached mode the `except GeneralError` clause is never reached because
`readline` does not raise at EOF, so the method always returns
`"1 " + readline()`. -/
def next (st : FIState) : Option String × FIState :=
  let st := { st with lineno := st.lineno + 1 }
  if st.cached ∧ (st.numlines : ℤ) ≤ st.lineno then (none, st)
  else if !st.cached then
    let (l, st') := fReadline st
    (some ("1 " ++ l), st')
  else
    (some ("0 " ++ st.contents.getD st.lineno.toNat ""), st)

end FileIterator

/-- The value produced by the (n+1)-st call of `next` on iterator state
`st`. -/
def fiNth (st : FIState) : ℕ → Option String
  | 0 => (FileIterator.next st).1
  | n + 1 => fiNth (FileIterator.next st).2 n

/-- One `next` call in non-cached mode: always yields `"1 "` plus the
`readline` result; the handle advances only while lines remain. -/
theorem next_noncached (st : FIState) (h : st.cached = false) :
    FileIterator.next st =
      (some ("1 " ++ st.fileLines.getD st.filepos ""),
       { st with lineno := st.lineno + 1,
                 filepos := if st.filepos < st.fileLines.length then st.filepos + 1
                            else st.filepos }) := by
  rcases Nat.lt_or_ge st.filepos st.fileLines.length with hlt | hge
  · simp [FileIterator.next, h, fReadline, List.getElem?_eq_getElem hlt,
      List.getD_eq_getElem?_getD, hlt]
  · simp [FileIterator.next, h, fReadline, List.getElem?_eq_none hge,
      List.getD_eq_getElem?_getD, Nat.not_lt.mpr hge]

/-- Non-cached closed form: every call returns `"1 "` plus the next
`readline` result (`""` once the file is exhausted); `next` never signals
`StopIteration`. -/
theorem fiNth_noncached (st : FIState) (h : st.cached = false) (n : ℕ) :
    fiNth st n = some ("1 " ++ st.fileLines.getD (st.filepos + n) "") := by
  induction n generalizing st with
  | zero => rw [fiNth, next_noncached st h]; rfl
  | succ n ih =>
    rw [fiNth, next_noncached st h]
    rcases Nat.lt_or_ge st.filepos st.fileLines.length with hlt | hge
    · rw [if_pos hlt]
      have ih' := ih { st with lineno := st.lineno + 1, filepos := st.filepos + 1 } h
      simp only at ih'
      rw [ih']
      have e : st.filepos + 1 + n = st.filepos + (n + 1) := by omega
      rw [e]
    · rw [if_neg (Nat.not_lt.mpr hge)]
      have ih' := ih { st with lineno := st.lineno + 1 } h
      simp only at ih'
      rw [ih']
      rw [List.getD_eq_default _ _ (by omega : st.fileLines.length ≤ st.filepos + n),
          List.getD_eq_default _ _ (by omega : st.fileLines.length ≤ st.filepos + (n + 1))]

/-- One `next` call in cached mode: `StopIteration` once the line counter
passes the cached line count, otherwise `"0 "` plus the cached line. -/
theorem next_cached (st : FIState) (h : st.cached = true) :
    FileIterator.next st =
      (if (st.numlines : ℤ) ≤ st.lineno + 1 then none
       else some ("0 " ++ st.contents.getD (st.lineno + 1).toNat ""),
       { st with lineno := st.lineno + 1 }) := by
  by_cases hc : (st.numlines : ℤ) ≤ st.lineno + 1
  · simp [FileIterator.next, h, hc]
  · simp [FileIterator.next, h, hc]

/-- Cached closed form: the (n+1)-st call yields `"0 "` plus cached line
`lineno + 1 + n`, or `StopIteration` past the end. -/
theorem fiNth_cached (c : List String) (n : ℕ) :
    ∀ st : FIState, st.cached = true → st.contents = c → st.numlines = c.length →
      fiNth st n =
        if st.lineno + 1 + (n : ℤ) < (c.length : ℤ) then
          some ("0 " ++ c.getD (st.lineno + 1 + (n : ℤ)).toNat "")
        else none := by
  induction n with
  | zero =>
    intro st h hco hnum
    rw [fiNth, next_cached st h, hco, hnum]
    have e : st.lineno + 1 + ((0 : ℕ) : ℤ) = st.lineno + 1 := by push_cast; ring
    rw [e]
    by_cases hc : (c.length : ℤ) ≤ st.lineno + 1
    · rw [if_pos hc, if_neg (by omega)]
    · rw [if_neg hc, if_pos (by omega)]
  | succ n ih =>
    intro st h hco hnum
    rw [fiNth, next_cached st h]
    have ih' := ih { st with lineno := st.lineno + 1 } h hco hnum
    simp only at ih'
    rw [ih']
    have e : st.lineno + 1 + 1 + (n : ℤ) = st.lineno + 1 + ((n + 1 : ℕ) : ℤ) := by
      push_cast; ring
    rw [e]

/-- C9 counterexample: the cached iterator yields `"0 abc\n"` for the file
line `"abc\n"` (the line is modified by a mode prefix), and the non-cached
iterator yields `"1 abc\n"` for the same file, so the two modes do not
produce the same line sequence either. -/
theorem fileIterator_C9_cex :
    fiNth (FileIterator.init ["abc\n"] true) 0 = some "0 abc\n" ∧
    ("0 abc\n" : String) ≠ "abc\n" ∧
    fiNth (FileIterator.init ["abc\n"] false) 0 = some "1 abc\n" ∧
    ("1 abc\n" : String) ≠ "0 abc\n" := by
  exact ⟨rfl, by decide, rfl, by decide⟩

/-- C9 (amended): `FileIterator` yields the file's lines in order and in
full, but each line is prefixed with a mode flag — `"0 "` in cached mode,
`"1 "` in non-cached mode; after the last line the cached iterator signals
end-of-input while the non-cached one keeps yielding `"1 "`.  The two modes
therefore agree only up to the differing two-character prefix. -/
theorem fileIterator_C9_amended (lines : List String) (n : ℕ) :
    (n < lines.length →
      fiNth (FileIterator.init lines true) n = some ("0 " ++ lines.getD n "") ∧
      fiNth (FileIterator.init lines false) n = some ("1 " ++ lines.getD n "")) ∧
    (lines.length ≤ n →
      fiNth (FileIterator.init lines true) n = none ∧
      fiNth (FileIterator.init lines false) n = some "1 ") := by
  have hc := fiNth_cached lines n (FileIterator.init lines true) rfl rfl rfl
  have hn := fiNth_noncached (FileIterator.init lines false) rfl n
  have hlineno : (FileIterator.init lines true).lineno = -1 := rfl
  have hpos : (FileIterator.init lines false).filepos = 0 := rfl
  have hfl : (FileIterator.init lines false).fileLines = lines := rfl
  rw [hlineno] at hc
  rw [hpos, hfl] at hn
  constructor
  · intro hlt
    refine ⟨?_, ?_⟩
    · rw [hc, if_pos (show (-1 : ℤ) + 1 + (n : ℤ) < (lines.length : ℤ) by push_cast; omega)]
      have e : ((-1 : ℤ) + 1 + (n : ℤ)).toNat = n := by omega
      rw [e]
    · rw [hn, Nat.zero_add]
  · intro hge
    refine ⟨?_, ?_⟩
    · rw [hc, if_neg (show ¬((-1 : ℤ) + 1 + (n : ℤ) < (lines.length : ℤ)) by push_cast; omega)]
    · rw [hn, Nat.zero_add, List.getD_eq_default _ _ (by omega)]
      simp

/-- C9 witness: instantiates the amended theorem on the one-line file
`["abc\n"]`, at an in-range index and past the end. -/
theorem fileIterator_C9_amended_witness :
    (0 < (["abc\n"] : List String).length ∧
      fiNth (FileIterator.init ["abc\n"] true) 0 =
        some ("0 " ++ (["abc\n"] : List String).getD 0 "")) ∧
    ((["abc\n"] : List String).length ≤ 1 ∧
      fiNth (FileIterator.init ["abc\n"] true) 1 = none) :=
  ⟨⟨by decide, ((fileIterator_C9_amended ["abc\n"] 0).1 (by decide)).1⟩,
   ⟨by decide, ((fileIterator_C9_amended ["abc\n"] 1).2 (by decide)).1⟩⟩

/-- C10: a `FileIterator` constructed with `cache=False` never signals
end-of-input: every call of `next` returns `some` value, namely `"1 "` plus
the next `readline` result (the empty string once the file is exhausted),
and that value is a non-empty string, so iteration never terminates. -/
theorem fileIterator_C10_noncached_never_stops (lines : List String) (n : ℕ) :
    fiNth (FileIterator.init lines false) n = some ("1 " ++ lines.getD n "") ∧
    ("1 " ++ lines.getD n "") ≠ "" := by
  constructor
  · have hn := fiNth_noncached (FileIterator.init lines false) rfl n
    have hfl : (FileIterator.init lines false).fileLines = lines := rfl
    have hpos : (FileIterator.init lines false).filepos = 0 := rfl
    rw [hfl, hpos, Nat.zero_add] at hn
    exact hn
  · intro hcontra
    have := congrArg String.data hcontra
    simp [String.data_append] at this

/-! ## VasprunParser (parsers.py lines 225–429)

The whole-document parser.  The parsed tree is modelled by the query results
the code's xpath expressions address: `i` entries of `/modeling/incar`,
`varray` children of `/modeling/kpoints`, the `v` texts of
`/modeling/calculation/varray[@name='forces']`, and the `v` texts of the
velocities varrays of the `initialpos`/`finalpos` structures. -/

structure VDoc where
  incar : List (String × String)           -- (name attr, text) of /modeling/incar/i
  kpointsVarrays : List (String × String)  -- (name attr, text) of /modeling/kpoints/varray
  calcForces : List String                 -- /modeling/calculation/varray[@name='forces']/v
  initialVelocities : List String  -- /modeling/structure[@name='initialpos']/varray[@name='velocities']/v
  finalVelocities : List String    -- /modeling/structure[@name='finalpos']/varray[@name='velocities']/v
deriving DecidableEq, Repr

/-- xpath `[@name='key']` selection over (name, text) pairs. -/
def xpathAttr (items : List (String × String)) (name : String) : List String :=
  (items.filter (fun p => p.1 = name)).map (fun p => p.2)

namespace VasprunParser

/-- `get_incar_property`: returns `results[0].text` if the xpath matched,
else raises `LookupError('Value not found')`. -/
def get_incar_property (doc : VDoc) (propname : String) : Except PyError String :=
  match xpathAttr doc.incar propname with
  | t :: _ => .ok t
  | [] => .error (.lookupError "Value not found")

/-- The module-level name `kpointlist` interpolated into `get_num_kpoints`'s
query string.  parsers.py never defines `kpointlist` (nor do its imports
bind it), so this name is unbound. -/
def kpointlist? : Option String := none

/-- `get_num_kpoints`: builds the xpath string
`"/modeling/kpoints/varray[@name='" + kpointlist + "']"`; evaluating the
unbound name `kpointlist` raises NameError before any lookup happens. -/
def get_num_kpoints (doc : VDoc) : Except PyError String :=
  match kpointlist? with
  | none => .error .nameError
  | some kl =>
    match xpathAttr doc.kpointsVarrays kl with
    | t :: _ => .ok t
    | [] => .error (.lookupError "Value not found")

/-- `get_force_on_atom(atom_no)`: `forces[atom_no-1]` — a plain Python
index into the xpath result list (IndexError when out of range, negative
wrap-around included), then float conversion of the split text. -/
def get_force_on_atom (doc : VDoc) (atom_no : ℤ) : Except PyError (List ℚ) := do
  let forces := doc.calcForces
  let t ← pyIndex forces (atom_no - 1)
  (pySplit t.data).mapM pyFloatE

/-- A numpy array as built by `np.array(f.text.split())` — note the source
does *not* convert the split tokens to float here, so a non-empty token list
yields an array of string (flexible) dtype; only the empty list gives an
(empty, float64) array. -/
inductive NpArr where
  | strs (toks : List (List Char))
  | floats (vals : List ℚ)

def npArray (toks : List (List Char)) : NpArr :=
  match toks with
  | [] => .floats []
  | _ => .strs toks

/-- `np.dot(a, a)`: sum of squares on float arrays (0.0 for the empty
array); on string-dtype arrays numpy raises TypeError (no reduce for
flexible dtypes). -/
def npDotSelf : NpArr → Except PyError ℚ
  | .floats vals => .ok ((vals.map (fun v => v * v)).sum)
  | .strs _ => .error .typeError

/-- `np.sqrt` on ℚ: exact whenever the argument is the square of a rational,
which covers every value reaching it in this code (only 0 ever does). -/
def npSqrt (q : ℚ) : ℚ := (Nat.sqrt q.num.toNat : ℚ) / (Nat.sqrt q.den : ℚ)

/-- `get_max_force`: iterate the force `v` texts, `force =
np.array(f.text.split())` (strings!), `force_norm = np.sqrt(np.dot(force,
force))`, keep the maximum. -/
def get_max_force (doc : VDoc) : Except PyError ℚ :=
  doc.calcForces.foldlM
    (fun max_force f => do
      let force := npArray (pySplit f.data)
      let d ← npDotSelf force
      let force_norm := npSqrt d
      pure (if force_norm > max_force then force_norm else max_force))
    0

/-- One row of a velocities varray: numpy row assignment
`vel_array[i] = [float(f) for f in text.split()]` needs exactly three
components (ValueError otherwise). -/
def parseRow3 (t : String) : Except PyError (ℚ × ℚ × ℚ) := do
  let vs ← (pySplit t.data).mapM pyFloatE
  match vs with
  | [x, y, z] => .ok (x, y, z)
  | _ => .error .valueError

/-- `get_initial_velocities`: raises
`LookupError('Velocities not found. Is this file from a MD run?')` when the
velocities varray has no `v` entries. -/
def get_initial_velocities (doc : VDoc) : Except PyError (List (ℚ × ℚ × ℚ)) :=
  let all_vel := doc.initialVelocities
  if all_vel.isEmpty then
    .error (.lookupError "Velocities not found. Is this file from a MD run?")
  else
    all_vel.mapM parseRow3

/-- `get_final_velocities`: same as `get_initial_velocities` on the
`finalpos` structure. -/
def get_final_velocities (doc : VDoc) : Except PyError (List (ℚ × ℚ × ℚ)) :=
  let all_vel := doc.finalVelocities
  if all_vel.isEmpty then
    .error (.lookupError "Velocities not found. Is this file from a MD run?")
  else
    all_vel.mapM parseRow3

end VasprunParser

/-- C1: the claim says every whole-document query returns its value or
raises the typed LookupError, never any other crash.  The code disagrees:
`get_num_kpoints` always raises NameError (it interpolates the unbound
module name `kpointlist` into its query string), and `get_force_on_atom`
raises IndexError on a document whose force varray is empty (it indexes the
xpath result list without checking).  Neither NameError nor IndexError is
the LookupError kind. -/
theorem vasprun_C1_queries_crash :
    (∀ doc : VDoc, VasprunParser.get_num_kpoints doc = .error .nameError) ∧
    VasprunParser.get_force_on_atom ⟨[], [], [], [], []⟩ 1 = .error .indexError ∧
    PyError.nameError.kind ≠ PyErrKind.lookupError ∧
    PyError.indexError.kind ≠ PyErrKind.lookupError :=
  ⟨fun _ => rfl, rfl, by decide, by decide⟩

/-- C2: the claim says `get_max_force` returns 5.0 on forces
`[(3,4,0),(0,0,5)]` and 0.0 on an empty force list.  The code builds
`np.array(f.text.split())` *without* converting the tokens to float, so on
any non-empty force vector `np.dot` hits a string-dtype array and raises
TypeError; only the empty-list half of the claim holds. -/
theorem vasprun_C2_max_force_crash :
    VasprunParser.get_max_force ⟨[], [], ["3 4 0", "0 0 5"], [], []⟩ = .error .typeError ∧
    VasprunParser.get_max_force ⟨[], [], [], [], []⟩ = .ok 0 :=
  ⟨rfl, rfl⟩

/-- C8 counterexample: on a document with no velocities varray, the
initial-velocity query fails with the *same* error kind (LookupError) as the
generic absence case (`get_incar_property` on a missing property), so the
"not a dynamics run" condition is not a distinct error kind. -/
theorem vasprun_C8_cex :
    errKind (VasprunParser.get_initial_velocities ⟨[], [], [], [], []⟩) =
      some PyErrKind.lookupError ∧
    errKind (VasprunParser.get_incar_property ⟨[], [], [], [], []⟩ "ENCUT") =
      some PyErrKind.lookupError ∧
    errKind (VasprunParser.get_initial_velocities ⟨[], [], [], [], []⟩) =
      errKind (VasprunParser.get_incar_property ⟨[], [], [], [], []⟩ "ENCUT") :=
  ⟨by decide, by decide, by decide⟩

/-- C8 (amended): on a document with no velocities varray both velocity
queries fail with a LookupError — the same error *kind* as the generic
NotFound — whose *message* (`'Velocities not found. Is this file from a MD
run?'`) distinguishes the not-a-dynamics-run condition from the generic
`'Value not found'`. -/
theorem vasprun_C8_amended (doc : VDoc)
    (h1 : doc.initialVelocities = []) (h2 : doc.finalVelocities = []) :
    VasprunParser.get_initial_velocities doc =
      .error (.lookupError "Velocities not found. Is this file from a MD run?") ∧
    VasprunParser.get_final_velocities doc =
      .error (.lookupError "Velocities not found. Is this file from a MD run?") ∧
    errKind (VasprunParser.get_initial_velocities doc) = some PyErrKind.lookupError ∧
    ("Velocities not found. Is this file from a MD run?" : String) ≠ "Value not found" := by
  refine ⟨?_, ?_, ?_, by decide⟩
  · simp [VasprunParser.get_initial_velocities, h1]
  · simp [VasprunParser.get_final_velocities, h2]
  · simp [errKind, VasprunParser.get_initial_velocities, h1, PyError.kind]

/-- C8 witness: the amended theorem applied to the empty document. -/
theorem vasprun_C8_amended_witness :
    (⟨[], [], [], [], []⟩ : VDoc).initialVelocities = [] ∧
    (⟨[], [], [], [], []⟩ : VDoc).finalVelocities = [] ∧
    VasprunParser.get_final_velocities ⟨[], [], [], [], []⟩ =
      .error (.lookupError "Velocities not found. Is this file from a MD run?") :=
  ⟨rfl, rfl, (vasprun_C8_amended ⟨[], [], [], [], []⟩ rfl rfl).2.1⟩

/-! ## VasprunParser.__init__ (parsers.py lines 230–260)

The external XML backend (`lxml.etree.parse`) is out of scope of the
repository; it is modelled by its interface: a whole-buffer parse either
recovers a tree together with the diagnostics collected in the parser's
error log, or raises XMLSyntaxError with the collected diagnostics. -/

/-- Outcome of the backend's whole-document parse. -/
inductive ParseOutcome (τ : Type) where
  | recovered (tree : τ) (diags : List String)
  | fatal (diags : List String)

/-- `VasprunParser.__init__`: read the whole file into `docstr`, zap the
control characters from the whole buffer, parse; on success print each
collected diagnostic as `"Warning: ..."` and keep the tree; on
XMLSyntaxError print the failure notice plus the diagnostics and
`sys.exit(2)`.  Returns the constructed document (or the fatal exit)
together with the printed lines. -/
def vasprunInit {τ : Type} (raw : List Char) (filename : String)
    (xmlParse : List Char → ParseOutcome τ) : Except PyError τ × List String :=
  let docstr := pySanitize raw
  match xmlParse docstr with
  | .recovered t ds => (.ok t, ds.map (fun m => "Warning: " ++ m))
  | .fatal ds =>
    (.error (.systemExit 2),
     ("Failed to parse xml file: " ++ filename) :: ds.map (fun m => "Warning: " ++ m))

/-- C7: construction sanitizes the whole buffer before the parse (the result
is an in-order subsequence of the input holding exactly its non-control
characters), been given a recoverable parse it reports each diagnostic as a
warning while still yielding the recovered tree, and it fails — fatally,
with exit code 2, an error kind distinct from LookupError — exactly when the
backend cannot parse the document at all. -/
theorem vasprun_C7_init_tolerant {τ : Type} (raw : List Char) (filename : String)
    (xmlParse : List Char → ParseOutcome τ) :
    (pySanitize raw).Sublist raw ∧
    (∀ c ∈ pySanitize raw, isZappedCtrl c = false) ∧
    (∀ c ∈ raw, isZappedCtrl c = false → c ∈ pySanitize raw) ∧
    (∀ t ds, xmlParse (pySanitize raw) = .recovered t ds →
      vasprunInit raw filename xmlParse = (.ok t, ds.map (fun m => "Warning: " ++ m))) ∧
    (∀ ds, xmlParse (pySanitize raw) = .fatal ds →
      (vasprunInit raw filename xmlParse).1 = .error (.systemExit 2) ∧
      errKind (vasprunInit raw filename xmlParse).1 ≠ some PyErrKind.lookupError) ∧
    ((vasprunInit raw filename xmlParse).1.isOk = true ↔
      ∃ t ds, xmlParse (pySanitize raw) = .recovered t ds) := by
  refine ⟨List.filter_sublist _, ?_, ?_, ?_, ?_, ?_⟩
  · intro c hc
    have := List.of_mem_filter hc
    simpa using this
  · intro c hc hz
    exact List.mem_filter.mpr ⟨hc, by simp [hz]⟩
  · intro t ds h
    simp [vasprunInit, h]
  · intro ds h
    refine ⟨by simp [vasprunInit, h], ?_⟩
    simp [vasprunInit, h, errKind, PyError.kind]
  · constructor
    · intro h
      cases hp : xmlParse (pySanitize raw) with
      | recovered t ds => exact ⟨t, ds, rfl⟩
      | fatal ds => simp [vasprunInit, hp, Except.isOk, Except.toBool] at h
    · rintro ⟨t, ds, hp⟩
      simp [vasprunInit, hp, Except.isOk, Except.toBool]

/-- C7 witness: the theorem applied to a concrete buffer holding a control
character and a backend that recovers a tree with one diagnostic. -/
theorem vasprun_C7_init_tolerant_witness :
    (fun s => ParseOutcome.recovered (τ := ℕ) s.length ["d1"]) (pySanitize "ab\x01c".data) =
      ParseOutcome.recovered 3 ["d1"] ∧
    vasprunInit "ab\x01c".data "vasprun.xml" (fun s => ParseOutcome.recovered s.length ["d1"]) =
      (.ok 3, ["Warning: d1"]) := by
  constructor
  · rfl
  · exact (vasprun_C7_init_tolerant "ab\x01c".data "vasprun.xml"
      (fun s => ParseOutcome.recovered s.length ["d1"])).2.2.2.1 3 ["d1"] rfl

/-! ## IterativeVasprunParser (parsers.py lines 69–222)

The streaming parser.  `etree.iterparse(filename, tag=t)` is modelled as
the well-formed document's element stream in document order, each element
carrying its tag; `break` after the first match stops pulling from the
stream, so the number of consumed stream elements measures how far the scan
went. -/

/-- `_find_first_instance(tag, func)`: iterate the stream; on the first
element with the requested tag apply `func`, clean up and `break`; then
`return ret`.  When the tag never occurs the loop body never binds `ret`,
and `return ret` raises UnboundLocalError (a NameError) — there is no
try/except here.  The second component counts consumed stream elements. -/
def findFirstInstance {α β : Type} (events : List (String × α)) (tag : String)
    (func : α → β) : Except PyError β × ℕ :=
  match events with
  | [] => (.error .nameError, 0)
  | (t, a) :: rest =>
    if t = tag then (.ok (func a), 1)
    else
      let p := findFirstInstance rest tag func
      (p.1, p.2 + 1)

/-- C6 counterexample: on a stream in which the tag never occurs,
`_find_first_instance` fails with NameError (`ret` unbound) — a crash, not
a NotFound-style LookupError. -/
theorem iter_C6_cex :
    (findFirstInstance ([("other", 0)] : List (String × ℕ)) "incar" id).1 =
      .error .nameError ∧
    PyError.nameError.kind ≠ PyErrKind.lookupError :=
  ⟨rfl, by decide⟩

/-- C6 (amended): when the configured tag never occurs before end-of-stream
the operation fails with an unbound-local NameError crash (not a typed
NotFound); when the tag does occur, it returns the visitor's result on the
first occurrence and stops consuming the stream right there (the consumed
count is the match position plus one, independent of what follows). -/
theorem iter_C6_amended {α β : Type} (tag : String) (func : α → β) :
    (∀ events : List (String × α), (∀ e ∈ events, e.1 ≠ tag) →
      (findFirstInstance events tag func).1 = .error .nameError) ∧
    (∀ (pre : List (String × α)) (a : α) (post : List (String × α)),
      (∀ e ∈ pre, e.1 ≠ tag) →
      findFirstInstance (pre ++ (tag, a) :: post) tag func =
        (.ok (func a), pre.length + 1)) := by
  constructor
  · intro events hall
    induction events with
    | nil => rfl
    | cons e rest ih =>
      obtain ⟨t, a⟩ := e
      have ht : ¬(t = tag) := hall (t, a) (by simp)
      simp only [findFirstInstance, if_neg ht]
      exact ih (fun e he => hall e (List.mem_cons_of_mem _ he))
  · intro pre a post hpre
    induction pre with
    | nil => simp [findFirstInstance]
    | cons e rest ih =>
      obtain ⟨t, b⟩ := e
      have ht : ¬(t = tag) := hpre (t, b) (by simp)
      have ih' := ih (fun e he => hpre e (List.mem_cons_of_mem _ he))
      simp [List.cons_append, findFirstInstance, if_neg ht, ih']

/-- C6 witness: the amended theorem applied on concrete streams — a
two-element stream without the tag (NameError), and a stream whose second
element carries the tag (the visitor's result is returned after consuming
two elements, the trailing element untouched). -/
theorem iter_C6_amended_witness :
    (findFirstInstance ([("a", 1), ("b", 2)] : List (String × ℕ)) "incar"
        (fun x => x + 10)).1 = .error .nameError ∧
    findFirstInstance
        ([("a", 1)] ++ ("incar", 5) :: [("c", 7)] : List (String × ℕ)) "incar"
        (fun x => x + 10) = (.ok 15, 2) := by
  constructor
  · exact (iter_C6_amended "incar" (fun x => x + 10)).1 [("a", 1), ("b", 2)] (by decide)
  · exact (iter_C6_amended "incar" (fun x => x + 10)).2 [("a", 1)] 5 [("c", 7)] (by decide)

/-! ### Trajectory accumulator and the `calculation` scan (C3) -/

/-- Modelled from the spec: the `Trajectory` accumulator lives in
`oppvasp/md.py`, which is not under src/.  Per spec §4.3 / §3 it is
allocated with `num_steps` capacity (zero-initialised per-step arrays), its
setters write at a step index and writing beyond the declared capacity is an
IndexOutOfRange error, and `update_length` truncates every per-step array to
the actually-found count. -/
structure Trajectory where
  num_steps : ℕ
  timestep : ℚ
  num_atoms : ℕ
  basis : List (List (List ℚ))      -- one 3×3 matrix per step
  positions : List (List (List ℚ))  -- one atoms×3 array per step
  e_kinetic : List ℚ
  e_total : List ℚ
deriving DecidableEq, Repr

/-- Write at an index of a pre-allocated per-step array; beyond capacity is
an IndexOutOfRange error (spec §4.3). -/
def setAt {γ : Type} (l : List γ) (i : ℕ) (v : γ) : Except PyError (List γ) :=
  if i < l.length then .ok (l.set i v) else .error .indexError

namespace Trajectory

/-- Modelled from the spec: allocation with the declared capacity,
zero-initialised. -/
def init (num_steps : ℕ) (timestep : ℚ) (num_atoms : ℕ) : Trajectory :=
  { num_steps := num_steps
    timestep := timestep
    num_atoms := num_atoms
    basis := List.replicate num_steps (List.replicate 3 (List.replicate 3 0))
    positions := List.replicate num_steps (List.replicate num_atoms (List.replicate 3 0))
    e_kinetic := List.replicate num_steps 0
    e_total := List.replicate num_steps 0 }

def set_basis (t : Trajectory) (step : ℕ) (b : List (List ℚ)) :
    Except PyError Trajectory := do
  let l ← setAt t.basis step b
  pure { t with basis := l }

def set_positions (t : Trajectory) (step : ℕ) (p : List (List ℚ)) :
    Except PyError Trajectory := do
  let l ← setAt t.positions step p
  pure { t with positions := l }

def set_e_kinetic (t : Trajectory) (step : ℕ) (v : ℚ) :
    Except PyError Trajectory := do
  let l ← setAt t.e_kinetic step v
  pure { t with e_kinetic := l }

def set_e_total (t : Trajectory) (step : ℕ) (v : ℚ) :
    Except PyError Trajectory := do
  let l ← setAt t.e_total step v
  pure { t with e_total := l }

/-- Modelled from the spec: truncate every per-step array to the actual
found count. -/
def update_length (t : Trajectory) (m : ℕ) : Trajectory :=
  { t with basis := t.basis.take m
           positions := t.positions.take m
           e_kinetic := t.e_kinetic.take m
           e_total := t.e_total.take m }

end Trajectory

/-- One complete `calculation` element, holding what the visitor's xpaths
address: the basis rows of `structure/crystal`, the position rows of
`structure/varray[@name='positions']`, the optional
`energy/i[@name='kinetic']` and the required
`energy/i[@name='e_fr_energy']`. -/
structure CalcElem where
  basis : List (List ℚ)
  positions : List (List ℚ)
  e_kin : Option ℚ
  e_fr_energy : ℚ
deriving DecidableEq, Repr

/-- xpath positional selection `v[k]`: XPath positions are 1-based, so it
selects the k-th row when `1 ≤ k ≤ length` and nothing otherwise — in
particular `v[0]` selects nothing. -/
def xpathNth {α : Type} (l : List α) (k : ℤ) : List α :=
  if h : 1 ≤ k ∧ k ≤ l.length then [l.get ⟨(k - 1).toNat, by omega⟩] else []

/-- The positions xpath of `_calculation_tag_found`: for a single-atom
trajectory the code narrows the query to `v[atom_no+1]` (so with
`atom_no = -1` from `get_all_trajectories` this is `v[0]`, which selects
nothing); otherwise it takes every `v` row. -/
def posSelect (traj : Trajectory) (atom_no : ℤ) (e : CalcElem) : List (List ℚ) :=
  if traj.num_atoms = 1 then xpathNth e.positions (atom_no + 1)
  else e.positions

/-- `_calculation_tag_found`: write the basis at `step_no`, then the
positions rows selected by `posSelect` (narrowed for a single-atom
trajectory), the kinetic energy if present and the total energy, then
increment `step_no`. -/
def calculationTagFound (atom_no : ℤ) (st : Trajectory × ℕ) (e : CalcElem) :
    Except PyError (Trajectory × ℕ) := do
  let traj := st.1
  let step_no := st.2
  let traj ← traj.set_basis step_no e.basis
  let traj ← traj.set_positions step_no (posSelect traj atom_no e)
  let traj ←
    match e.e_kin with
    | some k => traj.set_e_kinetic step_no k
    | none => pure traj
  let traj ← traj.set_e_total step_no e.e_fr_energy
  pure (traj, step_no + 1)

/-- `_fast_iter`'s loop over the `calculation` events: apply the visitor to
each complete element in document order (an exception from the visitor
propagates). -/
def runCalcs (atom_no : ℤ) :
    List CalcElem → Trajectory × ℕ → Except PyError (Trajectory × ℕ)
  | [], st => .ok st
  | c :: cs, st => do
    let st' ← calculationTagFound atom_no st c
    runCalcs atom_no cs st'

/-- The error log of the `etree.XMLParser()` constructed at the top of
`_get_trajectories`: that parser object is never handed to `iterparse` nor
used for anything else, so its log stays empty. -/
def unusedParserErrorLog : List String := []

/-- `get_all_trajectories` (`atom_no = -1`, via `_get_trajectories`):
allocate the trajectory with the declared `NSW` capacity, iterate the
complete `calculation` elements; if the document is truncated mid-tag the
iteration ends in an XMLSyntaxError, which is caught, and the error log of
the unused local parser is printed as `Warning:` lines; finally
`update_length(step_no)`.  Returns the truncated trajectory, the found-step
count and the printed warning lines. -/
def get_all_trajectories (nsw : ℕ) (potim : ℚ) (natoms : ℕ)
    (calcs : List CalcElem) (truncated : Bool) :
    Except PyError (Trajectory × ℕ × List String) := do
  let st ← runCalcs (-1) calcs (Trajectory.init nsw potim natoms, 0)
  let warnings :=
    if truncated then unusedParserErrorLog.map (fun m => "Warning: " ++ m)
    else []
  pure (st.1.update_length st.2, st.2, warnings)

/-- The per-step arrays all have the allocated capacity `n`. -/
def trajWF (t : Trajectory) (n : ℕ) : Prop :=
  t.basis.length = n ∧ t.positions.length = n ∧
    t.e_kinetic.length = n ∧ t.e_total.length = n

theorem setAt_ok {γ : Type} (l : List γ) (i : ℕ) (v : γ) (h : i < l.length) :
    setAt l i v = .ok (l.set i v) := by
  simp [setAt, h]

theorem exbind_ok {α β : Type} (a : α) (f : α → Except PyError β) :
    (Except.ok a >>= f) = f a := rfl

theorem expure_ok {α β : Type} (a : α) (f : α → Except PyError β) :
    ((pure a : Except PyError α) >>= f) = f a := rfl

theorem set_basis_ok (t : Trajectory) (k : ℕ) (b : List (List ℚ))
    (h : k < t.basis.length) :
    t.set_basis k b = .ok { t with basis := t.basis.set k b } := by
  simp only [Trajectory.set_basis, setAt, if_pos h]
  rfl

theorem set_positions_ok (t : Trajectory) (k : ℕ) (p : List (List ℚ))
    (h : k < t.positions.length) :
    t.set_positions k p = .ok { t with positions := t.positions.set k p } := by
  simp only [Trajectory.set_positions, setAt, if_pos h]
  rfl

theorem set_e_kinetic_ok (t : Trajectory) (k : ℕ) (v : ℚ)
    (h : k < t.e_kinetic.length) :
    t.set_e_kinetic k v = .ok { t with e_kinetic := t.e_kinetic.set k v } := by
  simp only [Trajectory.set_e_kinetic, setAt, if_pos h]
  rfl

theorem set_e_total_ok (t : Trajectory) (k : ℕ) (v : ℚ)
    (h : k < t.e_total.length) :
    t.set_e_total k v = .ok { t with e_total := t.e_total.set k v } := by
  simp only [Trajectory.set_e_total, setAt, if_pos h]
  rfl

/-- Updating the basis does not change the atom count, so the positions
xpath selection is unchanged. -/
theorem posSelect_basis_update (t : Trajectory) (b : List (List (List ℚ)))
    (atom_no : ℤ) (e : CalcElem) :
    posSelect { t with basis := b } atom_no e = posSelect t atom_no e := rfl

/-- The positions xpath selection depends only on the atom count. -/
theorem posSelect_congr {t t' : Trajectory} (h : t.num_atoms = t'.num_atoms)
    (atom_no : ℤ) (e : CalcElem) :
    posSelect t atom_no e = posSelect t' atom_no e := by
  simp [posSelect, h]

/-- `v[0]` (the single-atom narrowing with `atom_no = -1`) selects
nothing. -/
theorem xpathNth_zero {α : Type} (l : List α) :
    xpathNth l ((-1 : ℤ) + 1) = [] := by
  rw [xpathNth, dif_neg]
  omega

/-- The visitor on a within-capacity step: writes all the element's data at
`step_no` — the positions row being the rows its xpath selects — and
increments the step counter. -/
theorem calculationTagFound_ok (atom_no : ℤ) (traj : Trajectory) (k : ℕ)
    (c : CalcElem) (n : ℕ) (hwf : trajWF traj n) (hk : k < n) :
    calculationTagFound atom_no (traj, k) c =
      .ok ({ traj with
               basis := traj.basis.set k c.basis
               positions := traj.positions.set k (posSelect traj atom_no c)
               e_kinetic :=
                 (match c.e_kin with
                  | some v => traj.e_kinetic.set k v
                  | none => traj.e_kinetic)
               e_total := traj.e_total.set k c.e_fr_energy }, k + 1) := by
  obtain ⟨h1, h2, h3, h4⟩ := hwf
  cases hek : c.e_kin with
  | none =>
    simp only [calculationTagFound, hek]
    rw [set_basis_ok traj k c.basis (by rw [h1]; exact hk), exbind_ok,
      posSelect_basis_update,
      set_positions_ok _ k (posSelect traj atom_no c)
        (by simp only [h2]; exact hk), exbind_ok,
      expure_ok,
      set_e_total_ok _ k c.e_fr_energy (by simp only [h4]; exact hk)]
    rfl
  | some v =>
    simp only [calculationTagFound, hek]
    rw [set_basis_ok traj k c.basis (by rw [h1]; exact hk), exbind_ok,
      posSelect_basis_update,
      set_positions_ok _ k (posSelect traj atom_no c)
        (by simp only [h2]; exact hk), exbind_ok,
      set_e_kinetic_ok _ k v (by simp only [h3]; exact hk), exbind_ok,
      set_e_total_ok _ k c.e_fr_energy (by simp only [h4]; exact hk)]
    rfl

/-- Invariant of the `calculation` scan: with all elements within capacity
the scan succeeds, advances the counter by the element count, preserves the
capacity, the atom count and the entries outside the written window, and
stores each element's data at its document-order index — the positions row
being the rows the visitor's xpath selects for this atom count. -/
theorem runCalcs_ok (atom_no : ℤ) (n : ℕ) (calcs : List CalcElem) :
    ∀ (traj : Trajectory) (k : ℕ), trajWF traj n → k + calcs.length ≤ n →
      ∃ traj' : Trajectory,
        runCalcs atom_no calcs (traj, k) = .ok (traj', k + calcs.length) ∧
        trajWF traj' n ∧
        traj'.num_atoms = traj.num_atoms ∧
        (∀ j : ℕ, j < k ∨ k + calcs.length ≤ j →
          traj'.basis.getD j [] = traj.basis.getD j [] ∧
          traj'.positions.getD j [] = traj.positions.getD j [] ∧
          traj'.e_total.getD j 0 = traj.e_total.getD j 0) ∧
        (∀ i : ℕ, (h : i < calcs.length) →
          traj'.basis.getD (k + i) [] = calcs[i].basis ∧
          traj'.positions.getD (k + i) [] = posSelect traj atom_no calcs[i] ∧
          traj'.e_total.getD (k + i) 0 = calcs[i].e_fr_energy) := by
  induction calcs with
  | nil =>
    intro traj k hwf _
    exact ⟨traj, by simp [runCalcs], hwf, rfl,
      fun j _ => ⟨rfl, rfl, rfl⟩,
      fun i h => absurd h (by simp)⟩
  | cons c cs ih =>
    intro traj k hwf hle
    have hk : k < n := by simp at hle; omega
    have hstep := calculationTagFound_ok atom_no traj k c n hwf hk
    obtain ⟨h1, h2, h3, h4⟩ := hwf
    set traj1 : Trajectory :=
      { traj with
          basis := traj.basis.set k c.basis
          positions := traj.positions.set k (posSelect traj atom_no c)
          e_kinetic :=
            (match c.e_kin with
             | some v => traj.e_kinetic.set k v
             | none => traj.e_kinetic)
          e_total := traj.e_total.set k c.e_fr_energy } with htraj1
    have hwf1 : trajWF traj1 n := by
      rw [htraj1]
      refine ⟨by simp [h1], by simp [h2], ?_, by simp [h4]⟩
      cases c.e_kin <;> simp [h3]
    have hnum1 : traj1.num_atoms = traj.num_atoms := by rw [htraj1]
    obtain ⟨traj', hrun, hwf', hnum', huntouched, hdata⟩ :=
      ih traj1 (k + 1) hwf1 (by simp at hle ⊢; omega)
    refine ⟨traj', ?_, hwf', by rw [hnum', hnum1], ?_, ?_⟩
    · have : runCalcs atom_no (c :: cs) (traj, k) =
          runCalcs atom_no cs (traj1, k + 1) := by
        simp only [runCalcs, hstep]
        rfl
      rw [this, hrun]
      have e : k + 1 + cs.length = k + (c :: cs).length := by simp; omega
      rw [e]
    · intro j hj
      have hj1 : j < k + 1 ∨ k + 1 + cs.length ≤ j := by
        rcases hj with hlt | hge
        · exact Or.inl (by omega)
        · right; simp at hge; omega
      have hne : k ≠ j := by
        rcases hj with hlt | hge
        · omega
        · simp at hge; omega
      obtain ⟨hb, hp, he⟩ := huntouched j hj1
      refine ⟨?_, ?_, ?_⟩
      · rw [hb, htraj1]
        simp [List.getD_eq_getElem?_getD, List.getElem?_set_ne hne]
      · rw [hp, htraj1]
        simp [List.getD_eq_getElem?_getD, List.getElem?_set_ne hne]
      · rw [he, htraj1]
        simp [List.getD_eq_getElem?_getD, List.getElem?_set_ne hne]
    · intro i hi
      cases i with
      | zero =>
        have hjk : k < k + 1 ∨ k + 1 + cs.length ≤ k := Or.inl (by omega)
        obtain ⟨hb, hp, he⟩ := huntouched k hjk
        have ek : k + 0 = k := by omega
        rw [ek]
        refine ⟨?_, ?_, ?_⟩
        · rw [hb, htraj1]
          simp [List.getD_eq_getElem?_getD, List.getElem?_set_self',
            List.getElem?_eq_getElem (h1 ▸ hk)]
        · rw [hp, htraj1]
          simp [List.getD_eq_getElem?_getD, List.getElem?_set_self',
            List.getElem?_eq_getElem (h2 ▸ hk)]
        · rw [he, htraj1]
          simp [List.getD_eq_getElem?_getD, List.getElem?_set_self',
            List.getElem?_eq_getElem (h4 ▸ hk)]
      | succ i' =>
        have hi' : i' < cs.length := by simp at hi; omega
        obtain ⟨hb, hp, he⟩ := hdata i' hi'
        have e : k + (i' + 1) = k + 1 + i' := by omega
        rw [e]
        refine ⟨by rw [hb]; simp, ?_, by rw [he]; simp⟩
        rw [hp, posSelect_congr hnum1 atom_no cs[i']]
        simp

/-- C3 counterexample: on a document with two complete `calculation`
elements and a truncated tail, the scan succeeds and keeps both steps, but
the number of printed `Warning:` lines is zero — the error log consulted in
the except-branch belongs to a parser object that never parsed anything —
whereas the claim requires a warning to be reported. -/
theorem iter_C3_cex :
    ∃ tr : Trajectory,
      get_all_trajectories 3 1 2
        [⟨[[1, 0, 0], [0, 1, 0], [0, 0, 1]], [[0, 0, 0], [0, 0, 1/2]], none, -5⟩,
         ⟨[[1, 0, 0], [0, 1, 0], [0, 0, 1]], [[1/2, 0, 0], [0, 0, 1/2]], some 2, -6⟩]
        true =
      .ok (tr, 2, ([] : List String)) :=
  ⟨_, rfl⟩

/-- C3 (amended): on a document whose last `calculation` element is
truncated mid-tag, provided the number of complete elements does not exceed
the declared step capacity, the scan invokes the visitor on every complete
element in document order, retains the visitor's results at the right step
index, does not raise, truncates the trajectory to the found count — and
prints *no* warning line (the error log it reports from belongs to an
unused parser and is empty), rather than reporting a warning.  The stored
positions row is what the visitor's xpath selects: all the element's rows
normally, but for a single-atom trajectory the narrowed xpath
`v[atom_no+1] = v[0]` selects nothing and an empty row is stored. -/
theorem iter_C3_amended (nsw : ℕ) (potim : ℚ) (natoms : ℕ)
    (calcs : List CalcElem) (truncated : Bool) (hle : calcs.length ≤ nsw) :
    ∃ tr : Trajectory,
      get_all_trajectories nsw potim natoms calcs truncated =
        .ok (tr, calcs.length, ([] : List String)) ∧
      tr.basis.length = calcs.length ∧
      tr.positions.length = calcs.length ∧
      tr.e_total.length = calcs.length ∧
      (∀ i : ℕ, (h : i < calcs.length) →
        tr.basis.getD i [] = calcs[i].basis ∧
        tr.positions.getD i [] =
          (if natoms = 1 then [] else calcs[i].positions) ∧
        tr.e_total.getD i 0 = calcs[i].e_fr_energy) := by
  have hwf0 : trajWF (Trajectory.init nsw potim natoms) nsw := by
    refine ⟨?_, ?_, ?_, ?_⟩ <;> simp [Trajectory.init]
  obtain ⟨traj', hrun, hwf', -, -, hdata⟩ :=
    runCalcs_ok (-1) nsw calcs (Trajectory.init nsw potim natoms) 0 hwf0 (by omega)
  rw [Nat.zero_add] at hrun
  obtain ⟨hw1, hw2, hw3, hw4⟩ := hwf'
  refine ⟨traj'.update_length calcs.length, ?_, ?_, ?_, ?_, ?_⟩
  · simp only [get_all_trajectories, hrun, exbind_ok]
    cases truncated <;> simp [unusedParserErrorLog] <;> rfl
  · simp [Trajectory.update_length, List.length_take, hw1, Nat.min_eq_left hle]
  · simp [Trajectory.update_length, List.length_take, hw2, Nat.min_eq_left hle]
  · simp [Trajectory.update_length, List.length_take, hw4, Nat.min_eq_left hle]
  · intro i hi
    obtain ⟨hb, hp, he⟩ := hdata i hi
    rw [Nat.zero_add] at hb hp he
    have hps : posSelect (Trajectory.init nsw potim natoms) (-1) calcs[i] =
        (if natoms = 1 then [] else calcs[i].positions) := by
      have hna : (Trajectory.init nsw potim natoms).num_atoms = natoms := rfl
      rw [posSelect, hna, xpathNth_zero]
    refine ⟨?_, ?_, ?_⟩
    · rw [← hb]
      simp only [Trajectory.update_length, List.getD_eq_getElem?_getD]
      rw [List.getElem?_take]
      simp [hi]
    · rw [← hps, ← hp]
      simp only [Trajectory.update_length, List.getD_eq_getElem?_getD]
      rw [List.getElem?_take]
      simp [hi]
    · rw [← he]
      simp only [Trajectory.update_length, List.getD_eq_getElem?_getD]
      rw [List.getElem?_take]
      simp [hi]

/-- C3 witness: the amended theorem applied to a one-element two-atom
document with a truncated tail and capacity 2. -/
theorem iter_C3_amended_witness :
    ([(⟨[[1, 0, 0], [0, 1, 0], [0, 0, 1]], [[0, 0, 0], [0, 0, 1/2]], none,
        -5⟩ : CalcElem)].length ≤ 2) ∧
    ∃ tr : Trajectory,
      get_all_trajectories 2 1 2
        [⟨[[1, 0, 0], [0, 1, 0], [0, 0, 1]], [[0, 0, 0], [0, 0, 1/2]], none, -5⟩]
        true =
      .ok (tr, 1, ([] : List String)) := by
  refine ⟨by decide, ?_⟩
  obtain ⟨tr, h1, -, -, -, -⟩ :=
    iter_C3_amended 2 1 2
      [⟨[[1, 0, 0], [0, 1, 0], [0, 0, 1]], [[0, 0, 0], [0, 0, 1/2]], none, -5⟩]
      true (by decide)
  exact ⟨tr, h1⟩

/-! ## OutcarParser (parsers.py lines 474–574)

The log parser.  Its constructor scans the header through a cached
`FileIterator` (so every line it sees carries the `"0 "` cached-mode
prefix), recording `float(match.group(1))` for each configuration key on
every line whose key pattern matches, and stops after the first line that
completes all keys, or at end of input. -/

inductive CKey where
  | ibrion | nsw | potim | tein | tebeg | teend | smass
deriving DecidableEq, Repr

def CKey.str : CKey → String
  | .ibrion => "IBRION"
  | .nsw => "NSW"
  | .potim => "POTIM"
  | .tein => "TEIN"
  | .tebeg => "TEBEG"
  | .teend => "TEEND"
  | .smass => "SMASS"

def CKey.all : List CKey := [.ibrion, .nsw, .potim, .tein, .tebeg, .teend, .smass]

/-- `re.compile(key+'[ \t]*=[ \t]*([0-9.\-]+)')`. -/
def keyPat (k : CKey) : List RTok :=
  [.lit (CKey.str k).data, .star wsCls, .lit ['='], .star wsCls, .plusCap numCls]

/-- `config_patterns[key].search(line)`: the captured group, if any. -/
def keyCap (k : CKey) (line : List Char) : Option (List Char) :=
  match reSearch (keyPat k) line with
  | some (g :: _) => some g
  | _ => none

/-- The parsed value of the key's match on a line:
`float(m.group(1))` when the pattern matches and the capture parses. -/
def keyVal? (k : CKey) (line : List Char) : Option ℚ :=
  (keyCap k line).bind pyFloat?

/-- The running `config` / `keys_found` dictionaries. -/
structure HSt where
  config : CKey → ℚ
  found : CKey → Bool

/-- `config = {'IBRION': 0, 'NSW': 0, 'POTIM': 0., 'TEIN': 0., 'TEBEG': 0.,
'TEEND': 0., 'SMASS': 0.}` and `keys_found[key] = False` for every key. -/
def hInit : HSt := ⟨fun _ => 0, fun _ => false⟩

/-- The per-key body of the inner loop: search the key's pattern in the
line; on a match record `float(m.group(1))` (ValueError on a bad literal)
and set the found flag. -/
def headerKeyStep (line : List Char) (st : HSt) (k : CKey) : Except PyError HSt :=
  match keyCap k line with
  | none => .ok st
  | some g =>
    match pyFloat? g with
    | none => .error .valueError
    | some q =>
      .ok ⟨fun j => if j = k then q else st.config j,
           fun j => if j = k then true else st.found j⟩

/-- The inner `for key in config.keys()` loop over one line.  (After it,
`allkeys_found` equals "every key's found flag is set", because each key's
flag is tested right after that key's own match attempt.) -/
def headerLine (line : List Char) (st : HSt) : Except PyError HSt :=
  CKey.all.foldlM (headerKeyStep line) st

def allFound (st : HSt) : Bool := CKey.all.all st.found

/-- The outer `for line in self.file` loop: process each line; break as soon
as all keys have been found after a line.  Returns the final state, the last
value of `allkeys_found`, and the number of lines consumed.  (Only called
with a non-empty line list; on `[]` the loop body never runs and the
caller's `allkeys_found` reference raises NameError.) -/
def headerAux : List (List Char) → HSt → Except PyError (HSt × Bool × ℕ)
  | [], st => .ok (st, false, 0)
  | l :: ls, st => do
    let st' ← headerLine l st
    if allFound st' then .ok (st', true, 1)
    else do
      let t ← headerAux ls st'
      .ok (t.1, t.2.1, t.2.2 + 1)

/-- Result of the constructor's header scan. -/
structure HeaderResult where
  config : CKey → ℚ
  found : CKey → Bool
  consumed : ℕ
  allKeysFound : Bool
  missingReported : List CKey  -- keys printed under the non-fatal warning

/-- The header scan of `OutcarParser.__init__` over the lines the iterator
yields.  On an empty line sequence the loop never runs and the trailing
`if not allkeys_found` raises NameError (`allkeys_found` was never bound);
otherwise, when not all keys were found, the missing keys are printed
(non-fatally) and the defaults survive in `config`. -/
def outcarHeaderScan (seen : List (List Char)) : Except PyError HeaderResult :=
  match seen with
  | [] => .error .nameError
  | _ => do
    let t ← headerAux seen hInit
    .ok { config := t.1.config
          found := t.1.found
          consumed := t.2.2
          allKeysFound := t.2.1
          missingReported :=
            if t.2.1 then [] else CKey.all.filter (fun k => !t.1.found k) }

/-- What the cached `FileIterator` hands the scanner for a file line. -/
def seenLine (l : String) : List Char := ("0 " ++ l).data

/-- `OutcarParser.__init__` header scan on a file given as its line list. -/
def outcarInit (fileLines : List String) : Except PyError HeaderResult :=
  outcarHeaderScan (fileLines.map seenLine)

/-- The parsed value of the last line of `pref` matching key `k`. -/
def lastVal (k : CKey) (pref : List (List Char)) : Option ℚ :=
  (pref.filterMap (keyVal? k)).getLast?

/-- The capture of the last line of `pref` matching key `k`. -/
def lastCap (k : CKey) (pref : List (List Char)) : Option (List Char) :=
  (pref.filterMap (keyCap k)).getLast?

theorem headerKeyStep_cap_none (line : List Char) (st : HSt) (k : CKey)
    (h : keyCap k line = none) : headerKeyStep line st k = .ok st := by
  simp [headerKeyStep, h]

theorem headerKeyStep_parse_err (line : List Char) (st : HSt) (k : CKey)
    (g : List Char) (hg : keyCap k line = some g) (hq : pyFloat? g = none) :
    headerKeyStep line st k = .error .valueError := by
  simp [headerKeyStep, hg, hq]

theorem headerKeyStep_parse_ok (line : List Char) (st : HSt) (k : CKey)
    (g : List Char) (q : ℚ) (hg : keyCap k line = some g)
    (hq : pyFloat? g = some q) :
    headerKeyStep line st k =
      .ok ⟨fun j => if j = k then q else st.config j,
           fun j => if j = k then true else st.found j⟩ := by
  simp [headerKeyStep, hg, hq]

/-- The inner key loop over one line: under success, every matched capture
parses, each key's recorded value is that line's parsed match (or the
previous value when the key does not match), and the found flag picks up the
match. -/
theorem headerFold_ok (line : List Char) (ks : List CKey) :
    ∀ (st st' : HSt), ks.Nodup →
      ks.foldlM (headerKeyStep line) st = .ok st' →
      (∀ k ∈ ks, ∀ g, keyCap k line = some g → (pyFloat? g).isSome) ∧
      (∀ k, st'.config k =
        if k ∈ ks then
          (match keyVal? k line with | some q => q | none => st.config k)
        else st.config k) ∧
      (∀ k, st'.found k =
        if k ∈ ks then (st.found k || (keyCap k line).isSome) else st.found k) := by
  induction ks with
  | nil =>
    intro st st' _ h
    simp only [List.foldlM_nil] at h
    obtain rfl : st = st' := by
      have : (Except.ok st : Except PyError HSt) = .ok st' := h
      simpa using this
    exact ⟨by simp, fun k => by simp, fun k => by simp⟩
  | cons k0 ks ih =>
    intro st st' hnd h
    obtain ⟨hk0, hnd'⟩ := List.nodup_cons.mp hnd
    simp only [List.foldlM_cons] at h
    cases hcap : keyCap k0 line with
    | none =>
      rw [headerKeyStep_cap_none line st k0 hcap, exbind_ok] at h
      obtain ⟨hparse, hcfg, hfnd⟩ := ih st st' hnd' h
      refine ⟨?_, ?_, ?_⟩
      · intro k hk g hg
        rcases List.mem_cons.mp hk with rfl | hk'
        · rw [hcap] at hg; cases hg
        · exact hparse k hk' g hg
      · intro k
        rw [hcfg k]
        by_cases hmem : k = k0
        · subst hmem
          simp [hk0, keyVal?, hcap]
        · by_cases hks : k ∈ ks <;> simp [hks, hmem, List.mem_cons]
      · intro k
        rw [hfnd k]
        by_cases hmem : k = k0
        · subst hmem
          simp [hk0, hcap]
        · by_cases hks : k ∈ ks <;> simp [hks, hmem, List.mem_cons]
    | some g =>
      cases hpf : pyFloat? g with
      | none =>
        rw [headerKeyStep_parse_err line st k0 g hcap hpf] at h
        cases h
      | some q =>
        rw [headerKeyStep_parse_ok line st k0 g q hcap hpf, exbind_ok] at h
        obtain ⟨hparse, hcfg, hfnd⟩ := ih _ st' hnd' h
        refine ⟨?_, ?_, ?_⟩
        · intro k hk g' hg'
          rcases List.mem_cons.mp hk with rfl | hk'
          · rw [hcap] at hg'
            obtain rfl : g = g' := by simpa using hg'
            simp [hpf]
          · exact hparse k hk' g' hg'
        · intro k
          rw [hcfg k]
          by_cases hmem : k = k0
          · subst hmem
            simp [hk0, keyVal?, hcap, hpf]
          · by_cases hks : k ∈ ks <;> simp [hks, hmem, List.mem_cons]
        · intro k
          rw [hfnd k]
          by_cases hmem : k = k0
          · subst hmem
            simp [hk0, hcap]
          · by_cases hks : k ∈ ks <;> simp [hks, hmem, List.mem_cons]

/-- `headerLine` specification (the fold over all seven keys). -/
theorem headerLine_ok (line : List Char) (st st' : HSt)
    (h : headerLine line st = .ok st') :
    (∀ (k : CKey) (g : List Char), keyCap k line = some g → (pyFloat? g).isSome) ∧
    (∀ k, st'.config k =
      (match keyVal? k line with | some q => q | none => st.config k)) ∧
    (∀ k, st'.found k = (st.found k || (keyCap k line).isSome)) := by
  have hall : ∀ k : CKey, k ∈ CKey.all := by intro k; cases k <;> simp [CKey.all]
  have hnd : CKey.all.Nodup := by decide
  simp only [headerLine] at h
  obtain ⟨hp, hc, hf⟩ := headerFold_ok line CKey.all st st' hnd h
  refine ⟨fun k g hg => hp k (hall k) g hg, fun k => ?_, fun k => ?_⟩
  · rw [hc k, if_pos (hall k)]
  · rw [hf k, if_pos (hall k)]

/-- Last element of a `filterMap` over a cons: the tail's last match wins,
falling back to the head's match. -/
theorem lastOpt_cons {α β : Type} (f : α → Option β) (x : α) (xs : List α) :
    ((x :: xs).filterMap f).getLast? = ((xs.filterMap f).getLast?).or (f x) := by
  rw [List.filterMap_cons]
  cases hfx : f x with
  | none => simp
  | some b =>
    cases hxs : xs.filterMap f with
    | nil => simp
    | cons y ys =>
      rw [List.getLast?_cons_cons]
      obtain ⟨z, hz⟩ := Option.isSome_iff_exists.mp
        (List.getLast?_isSome.mpr (by simp : y :: ys ≠ []))
      rw [hz]
      rfl

theorem lastCap_cons (k : CKey) (l : List Char) (pref : List (List Char)) :
    lastCap k (l :: pref) = (lastCap k pref).or (keyCap k l) :=
  lastOpt_cons _ _ _

theorem lastVal_cons (k : CKey) (l : List Char) (pref : List (List Char)) :
    lastVal k (l :: pref) = (lastVal k pref).or (keyVal? k l) :=
  lastOpt_cons _ _ _

/-- The outer line loop: under success, the scan consumed `n` lines; inside
the consumed prefix every matched capture parses; each key's found flag and
recorded value are the last match of the consumed prefix (falling back to
the incoming state); `allkeys_found` is true exactly on an early break (all
keys found), false exactly on exhaustion with the final line still
incomplete; and no proper sub-prefix of length ≥ 1 already had all keys. -/
theorem headerAux_ok (lines : List (List Char)) :
    ∀ (st st' : HSt) (af : Bool) (n : ℕ),
      headerAux lines st = .ok (st', af, n) →
      n ≤ lines.length ∧
      (∀ l ∈ lines.take n, ∀ (k : CKey) (g : List Char),
        keyCap k l = some g → (pyFloat? g).isSome) ∧
      (∀ k, st'.found k = (st.found k || (lastCap k (lines.take n)).isSome)) ∧
      (∀ k, st'.config k =
        (match lastVal k (lines.take n) with
         | some q => q
         | none => st.config k)) ∧
      (af = true → allFound st' = true) ∧
      (af = false → n = lines.length) ∧
      (af = false → (lines = [] ∧ st' = st) ∨ allFound st' = false) ∧
      (∀ m : ℕ, 0 < m → m < n →
        ∃ k : CKey, (st.found k || (lastCap k (lines.take m)).isSome) = false) := by
  induction lines with
  | nil =>
    intro st st' af n h
    have h' : (Except.ok (st, false, 0) : Except PyError (HSt × Bool × ℕ)) =
        .ok (st', af, n) := h
    obtain ⟨rfl, rfl, rfl⟩ : st = st' ∧ false = af ∧ 0 = n := by simpa using h'
    refine ⟨by simp, by simp, ?_, ?_, by simp, by simp,
      fun _ => Or.inl ⟨rfl, rfl⟩, by omega⟩
    · intro k; simp [lastCap]
    · intro k; simp [lastVal]
  | cons l ls ih =>
    intro st st' af n h
    simp only [headerAux] at h
    cases hline : headerLine l st with
    | error e => rw [hline] at h; cases h
    | ok st1 =>
      rw [hline, exbind_ok] at h
      obtain ⟨hparse1, hcfg1, hfnd1⟩ := headerLine_ok l st st1 hline
      by_cases haf : allFound st1 = true
      · rw [if_pos haf] at h
        obtain ⟨rfl, rfl, rfl⟩ : st1 = st' ∧ true = af ∧ 1 = n := by simpa using h
        refine ⟨by simp, ?_, ?_, ?_, fun _ => haf, by simp, by simp, by omega⟩
        · intro l' hl' k g hg
          simp only [List.take_succ_cons, List.take_zero, List.mem_singleton] at hl'
          subst hl'
          exact hparse1 k g hg
        · intro k
          rw [hfnd1 k]
          simp only [List.take_succ_cons, List.take_zero, lastCap_cons]
          have h0 : lastCap k [] = none := by simp [lastCap]
          rw [h0, Option.none_or]
        · intro k
          rw [hcfg1 k]
          simp only [List.take_succ_cons, List.take_zero, lastVal_cons]
          have : lastVal k [] = none := by simp [lastVal]
          rw [this, Option.none_or]
      · rw [if_neg haf] at h
        cases hrec : headerAux ls st1 with
        | error e => rw [hrec] at h; cases h
        | ok trip =>
          obtain ⟨st2, af2, n2⟩ := trip
          rw [hrec, exbind_ok] at h
          obtain ⟨rfl, rfl, rfl⟩ : st2 = st' ∧ af2 = af ∧ n2 + 1 = n := by simpa using h
          obtain ⟨hlen, hparse, hfnd, hcfg, he, hf, hg, hmin⟩ := ih st1 st2 af2 n2 hrec
          refine ⟨by simp; omega, ?_, ?_, ?_, he, ?_, ?_, ?_⟩
          · intro l' hl' k g hg'
            simp only [List.take_succ_cons, List.mem_cons] at hl'
            rcases hl' with rfl | hl'
            · exact hparse1 k g hg'
            · exact hparse l' hl' k g hg'
          · intro k
            rw [hfnd k, hfnd1 k]
            simp only [List.take_succ_cons, lastCap_cons, Option.isSome_or]
            cases st.found k <;> cases (keyCap k l).isSome <;>
              cases (lastCap k (ls.take n2)).isSome <;> rfl
          · intro k
            rw [hcfg k, hcfg1 k]
            simp only [List.take_succ_cons, lastVal_cons]
            cases hlv : lastVal k (ls.take n2) with
            | some q => rfl
            | none => rfl
          · intro haf2
            rw [hf haf2]
            simp
          · intro haf2
            rcases hg haf2 with ⟨hnil, rfl⟩ | hr
            · exact Or.inr (by simpa using haf)
            · exact Or.inr hr
          · intro m hm0 hmn
            cases m with
            | zero => omega
            | succ m' =>
              simp only [List.take_succ_cons]
              cases Nat.eq_zero_or_pos m' with
              | inl hz =>
                subst hz
                have : ∃ k, st1.found k = false := by
                  by_contra hcon
                  push_neg at hcon
                  apply haf
                  simp only [allFound, List.all_eq_true]
                  intro k _
                  have := hcon k
                  revert this
                  cases st1.found k <;> simp
                obtain ⟨k, hk⟩ := this
                refine ⟨k, ?_⟩
                rw [hfnd1 k] at hk
                simp only [List.take_zero, lastCap_cons]
                have : lastCap k [] = none := by simp [lastCap]
                rw [this, Option.none_or]
                exact hk
              | inr hpos =>
                obtain ⟨k, hk⟩ := hmin m' hpos (by omega)
                refine ⟨k, ?_⟩
                rw [hfnd1 k] at hk
                simp only [lastCap_cons, Option.isSome_or]
                revert hk
                cases st.found k <;> cases (keyCap k l).isSome <;>
                  cases (lastCap k (ls.take m')).isSome <;> simp

set_option maxRecDepth 8000 in
/-- C4 counterexample: on the two header lines `NSW = 1` and `NSW = 2`
(with every other key absent, so the scan runs to exhaustion), the recorded
NSW value is 2 — the value of the *last* matching line — although the first
line matching the NSW pattern carries the value 1; the claim's
"first line matching" is false. -/
theorem outcar_C4_cex :
    ∃ res : HeaderResult,
      outcarInit ["NSW = 1", "NSW = 2"] = .ok res ∧
      res.config CKey.nsw = 2 ∧
      keyVal? CKey.nsw (seenLine "NSW = 1") = some 1 ∧
      res.consumed = 2 ∧
      (2 : ℚ) ≠ 1 := by
  refine ⟨_, rfl, ?_, ?_, rfl, by norm_num⟩
  · exact of_decide_eq_true (by with_unfolding_all rfl)
  · exact of_decide_eq_true (by with_unfolding_all rfl)

/-- C4 (amended): the header scan requires at least one line (on an empty
line source the loop never binds `allkeys_found` and the constructor
crashes with NameError); when it returns, each key's found flag and
recorded numeric value come from the *last* line matching that key's
pattern among the consumed lines (defaults survive for unmatched keys,
every matched capture float-parses); scanning stopped at the first line
after which every key had been found at least once, or at exhaustion
(in which case not all keys were found); and the missing keys are exactly
the ones reported non-fatally. -/
theorem outcar_C4_amended (fileLines : List String) (res : HeaderResult)
    (hok : outcarInit fileLines = .ok res) :
    fileLines ≠ [] ∧
    res.consumed ≤ fileLines.length ∧
    (∀ k, res.found k =
      (lastCap k ((fileLines.map seenLine).take res.consumed)).isSome) ∧
    (∀ k, res.config k =
      (lastVal k ((fileLines.map seenLine).take res.consumed)).getD 0) ∧
    (∀ l ∈ (fileLines.map seenLine).take res.consumed, ∀ (k : CKey) (g : List Char),
      keyCap k l = some g → (pyFloat? g).isSome) ∧
    (res.allKeysFound = true → ∀ k, res.found k = true) ∧
    (res.allKeysFound = false →
      res.consumed = fileLines.length ∧ ∃ k, res.found k = false) ∧
    (∀ m, m < res.consumed →
      ∃ k, lastCap k ((fileLines.map seenLine).take m) = none) ∧
    res.missingReported =
      (if res.allKeysFound then [] else CKey.all.filter (fun k => !res.found k)) := by
  rcases fileLines with - | ⟨l0, rest⟩
  · simp [outcarInit, outcarHeaderScan] at hok
  · simp only [outcarInit, List.map_cons, outcarHeaderScan] at hok
    cases haux : headerAux (seenLine l0 :: rest.map seenLine) hInit with
    | error e => rw [haux] at hok; cases hok
    | ok trip =>
      obtain ⟨stf, aff, nf⟩ := trip
      rw [haux, exbind_ok] at hok
      have hres : res =
          { config := stf.config, found := stf.found, consumed := nf,
            allKeysFound := aff,
            missingReported :=
              if aff then [] else CKey.all.filter (fun k => !stf.found k) } := by
        have := hok
        simpa using this.symm
      subst hres
      obtain ⟨hlen, hparse, hfnd, hcfg, he, hf, hg, hmin⟩ :=
        headerAux_ok (seenLine l0 :: rest.map seenLine) hInit stf aff nf haux
      have hall : ∀ k : CKey, k ∈ CKey.all := by intro k; cases k <;> simp [CKey.all]
      refine ⟨by simp, ?_, ?_, ?_, ?_, ?_, ?_, ?_, rfl⟩
      · simpa using hlen
      · intro k
        have := hfnd k
        simpa [hInit] using this
      · intro k
        have := hcfg k
        simp only [hInit] at this
        cases hlv : lastVal k ((seenLine l0 :: rest.map seenLine).take nf) with
        | some q => rw [hlv] at this; simpa [hlv] using this
        | none => rw [hlv] at this; simpa [hlv] using this
      · intro l' hl' k g hg'
        exact hparse l' hl' k g hg'
      · intro haff k
        have hA := he haff
        simp only [allFound, List.all_eq_true] at hA
        exact hA k (hall k)
      · intro haff
        refine ⟨by simpa using hf haff, ?_⟩
        rcases hg haff with ⟨hnil, -⟩ | hr
        · cases hnil
        · by_contra hcon
          push_neg at hcon
          have : allFound stf = true := by
            simp only [allFound, List.all_eq_true]
            intro k _
            have hck : stf.found k ≠ false := hcon k
            revert hck
            cases stf.found k <;> simp
          rw [this] at hr
          cases hr
      · intro m hm
        cases m with
        | zero => exact ⟨.ibrion, by simp [lastCap]⟩
        | succ m' =>
          obtain ⟨k, hk⟩ := hmin (m' + 1) (by omega) hm
          refine ⟨k, ?_⟩
          simp only [hInit, Bool.false_or] at hk
          cases hoc : lastCap k ((seenLine l0 :: rest.map seenLine).take (m' + 1)) with
          | none => simp only [List.map_cons]; exact hoc
          | some g => rw [hoc] at hk; cases hk

/-- C4 witness: the amended theorem applied to the one-line file
`["IBRION = 1"]` (the scan exhausts the single line and reports the six
other keys missing). -/
theorem outcar_C4_amended_witness :
    ∃ res : HeaderResult,
      outcarInit ["IBRION = 1"] = .ok res ∧
      res.consumed ≤ (["IBRION = 1"] : List String).length ∧
      (res.allKeysFound = false →
        res.consumed = (["IBRION = 1"] : List String).length ∧
        ∃ k, res.found k = false) := by
  obtain ⟨res, hres⟩ : ∃ res, outcarInit ["IBRION = 1"] = .ok res := ⟨_, rfl⟩
  have h := outcar_C4_amended ["IBRION = 1"] res hres
  exact ⟨res, hres, h.2.1, h.2.2.2.2.2.2.1⟩

/-! ### OutcarParser.get_ionic_steps (parsers.py lines 518–574) -/

/-- `re.search('Iteration[ \t]*([0-9]+)', line)`. -/
def iterPat : List RTok :=
  [.lit "Iteration".data, .star wsCls, .plusCap isDigitCh]

/-- `re.search('FORCES: max atom, RMS[ \t]*([0-9.\-]+)[ \t]*([0-9.\-]+)', line)`. -/
def forcesPat : List RTok :=
  [.lit "FORCES: max atom, RMS".data, .star wsCls, .plusCap numCls,
   .star wsCls, .plusCap numCls]

/-- `re.search('% ion-electron   TOTEN[ \t]*=[ \t]*([0-9.\-]+)', line)`. -/
def totenPat : List RTok :=
  [.lit "% ion-electron   TOTEN".data, .star wsCls, .lit ['='],
   .star wsCls, .plusCap numCls]

/-- `re.search('kinetic Energy EKIN[ \t]*=[ \t]*([0-9.\-]+)', line)`. -/
def ekinPat : List RTok :=
  [.lit "kinetic Energy EKIN".data, .star wsCls, .lit ['='],
   .star wsCls, .plusCap numCls]

/-- `re.search('total energy   ETOTAL[ \t]*=[ \t]*([0-9.\-E]+)', line)`. -/
def etotalPat : List RTok :=
  [.lit "total energy   ETOTAL".data, .star wsCls, .lit ['='],
   .star wsCls, .plusCap numECls]

/-- First capture group of a search result. -/
def cap1 (r : Option (List (List Char))) : Option (List Char) :=
  match r with
  | some (g :: _) => some g
  | _ => none

/-- First two capture groups of a search result. -/
def cap2 (r : Option (List (List Char))) : Option (List Char × List Char) :=
  match r with
  | some (g1 :: g2 :: _) => some (g1, g2)
  | _ => none

/-- The five per-step arrays of `get_ionic_steps`'s result dictionary. -/
structure IonicArrays where
  max_atom : List ℚ
  rms : List ℚ
  ion_electron : List ℚ
  ion_kinetic : List ℚ
  total : List ℚ
deriving DecidableEq, Repr

structure IonicState where
  arrays : IonicArrays
  stepno : Option ℕ  -- unbound until the first step-marker line
deriving DecidableEq, Repr

/-- Reading `stepno` before any `Iteration` marker raised it is a NameError
(the local was never bound). -/
def getStepno (st : IonicState) : Except PyError ℕ :=
  match st.stepno with
  | some n => .ok n
  | none => .error .nameError

/-- numpy scalar store `arr[i] = v`: negative indices wrap around once;
anything outside `[-len, len)` raises IndexError. -/
def npStore (l : List ℚ) (i : ℤ) (v : ℚ) : Except PyError (List ℚ) :=
  let j : ℤ := if i < 0 then i + l.length else i
  if h : 0 ≤ j ∧ j < l.length then .ok (l.set j.toNat v)
  else .error .indexError

/-- One line of the Phase-2 scan: the five pattern checks of the source, in
order, each an independent `if` (a line may match several).  A data match
evaluates `float(m.group(k))` first, then the `stepno - 1` target index,
then stores. -/
def ionicLine (st : IonicState) (line : List Char) : Except PyError IonicState := do
  let st :=
    match cap1 (reSearch iterPat line) with
    | some g => { st with stepno := some (digitsToNat g) }
    | none => st
  let st ←
    match cap2 (reSearch forcesPat line) with
    | some (g1, g2) => do
      let q1 ← pyFloatE g1
      let n ← getStepno st
      let ma ← npStore st.arrays.max_atom ((n : ℤ) - 1) q1
      let q2 ← pyFloatE g2
      let rm ← npStore st.arrays.rms ((n : ℤ) - 1) q2
      pure { st with arrays := { st.arrays with max_atom := ma, rms := rm } }
    | none => pure st
  let st ←
    match cap1 (reSearch totenPat line) with
    | some g => do
      let q ← pyFloatE g
      let n ← getStepno st
      let a ← npStore st.arrays.ion_electron ((n : ℤ) - 1) q
      pure { st with arrays := { st.arrays with ion_electron := a } }
    | none => pure st
  let st ←
    match cap1 (reSearch ekinPat line) with
    | some g => do
      let q ← pyFloatE g
      let n ← getStepno st
      let a ← npStore st.arrays.ion_kinetic ((n : ℤ) - 1) q
      pure { st with arrays := { st.arrays with ion_kinetic := a } }
    | none => pure st
  let st ←
    match cap1 (reSearch etotalPat line) with
    | some g => do
      let q ← pyFloatE g
      let n ← getStepno st
      let a ← npStore st.arrays.total ((n : ℤ) - 1) q
      pure { st with arrays := { st.arrays with total := a } }
    | none => pure st
  pure st

structure IonicResult where
  time : List ℚ
  arrays : IonicArrays
deriving DecidableEq, Repr

/-- `get_ionic_steps`: reset the cached file iterator (so each line carries
the `"0 "` prefix), allocate zero arrays of the declared step capacity,
build the time axis (`np.arange(1, numsteps+1)`, scaled by POTIM when
`IBRION == 0`), and run the Phase-2 scan over every line.  `nsw` is the
integer array capacity `np.zeros((numsteps))` allocates from the declared
step count. -/
def get_ionic_steps (nsw : ℕ) (ibrion potim : ℚ) (fileLines : List String) :
    Except PyError IonicResult := do
  let a0 : IonicArrays :=
    { max_atom := List.replicate nsw 0
      rms := List.replicate nsw 0
      ion_electron := List.replicate nsw 0
      ion_kinetic := List.replicate nsw 0
      total := List.replicate nsw 0 }
  let time0 : List ℚ := (List.range nsw).map (fun i => (i : ℚ) + 1)
  let time := if ibrion = 0 then time0.map (fun t => t * potim) else time0
  let st ← (fileLines.map seenLine).foldlM ionicLine { arrays := a0, stepno := none }
  pure { time := time, arrays := st.arrays }

theorem npStore_ok (l : List ℚ) (n : ℕ) (v : ℚ) (h1 : 1 ≤ n) (h2 : n ≤ l.length) :
    npStore l ((n : ℤ) - 1) v = .ok (l.set (n - 1) v) := by
  have hnn : ¬((n : ℤ) - 1 < 0) := by omega
  simp only [npStore, if_neg hnn]
  rw [dif_pos (by omega : (0 : ℤ) ≤ (n : ℤ) - 1 ∧ ((n : ℤ) - 1) < l.length)]
  have ht : ((n : ℤ) - 1).toNat = n - 1 := by omega
  rw [ht]


theorem pyFloat_0123 : pyFloat? "0.0123".data = some (123 / 10000) := by
  simp +decide [pyFloat?, pyFloatExp, digitsToNat]
  norm_num

theorem pyFloat_0045 : pyFloat? "0.0045".data = some (45 / 10000) := by
  simp +decide [pyFloat?, pyFloatExp, digitsToNat]
  norm_num

set_option maxRecDepth 2000 in
/-- C5: a line matching the force-summary pattern, processed while the
running step counter holds `n` (set by a preceding `Iteration n` marker,
`1 ≤ n ≤` capacity), writes the two parsed values at zero-based index
`n - 1` of `max_atom` and `rms`, leaving the step counter unchanged;
and on the concrete log `Iteration 3` / `FORCES: max atom, RMS   0.0123
0.0045` with capacity 3 the scan records `max_atom[2] = 0.0123` and
`rms[2] = 0.0045`. -/
theorem outcar_C5_forces_write :
    (∀ (st : IonicState) (line : List Char) (n cap : ℕ) (g1 g2 : List Char)
       (q1 q2 : ℚ),
      st.stepno = some n → 1 ≤ n → n ≤ cap →
      st.arrays.max_atom.length = cap → st.arrays.rms.length = cap →
      reSearch iterPat line = none →
      cap2 (reSearch forcesPat line) = some (g1, g2) →
      pyFloat? g1 = some q1 → pyFloat? g2 = some q2 →
      reSearch totenPat line = none →
      reSearch ekinPat line = none →
      reSearch etotalPat line = none →
      ∃ st' : IonicState, ionicLine st line = .ok st' ∧
        st'.stepno = some n ∧
        st'.arrays.max_atom.getD (n - 1) 0 = q1 ∧
        st'.arrays.rms.getD (n - 1) 0 = q2) ∧
    (∃ r : IonicResult,
      get_ionic_steps 3 1 1
          ["Iteration 3", "FORCES: max atom, RMS   0.0123   0.0045"] = .ok r ∧
      r.arrays.max_atom.getD 2 0 = 123 / 10000 ∧
      r.arrays.rms.getD 2 0 = 45 / 10000) := by
  have huniv :
      ∀ (st : IonicState) (line : List Char) (n cap : ℕ) (g1 g2 : List Char)
        (q1 q2 : ℚ),
        st.stepno = some n → 1 ≤ n → n ≤ cap →
        st.arrays.max_atom.length = cap → st.arrays.rms.length = cap →
        reSearch iterPat line = none →
        cap2 (reSearch forcesPat line) = some (g1, g2) →
        pyFloat? g1 = some q1 → pyFloat? g2 = some q2 →
        reSearch totenPat line = none →
        reSearch ekinPat line = none →
        reSearch etotalPat line = none →
        ∃ st' : IonicState, ionicLine st line = .ok st' ∧
          st'.stepno = some n ∧
          st'.arrays.max_atom.getD (n - 1) 0 = q1 ∧
          st'.arrays.rms.getD (n - 1) 0 = q2 := by
    intro st line n cap g1 g2 q1 q2 hstep hn1 hncap hlma hlrms hiter hforces hq1
      hq2 htoten hekin hetotal
    have hiter' : cap1 (reSearch iterPat line) = none := by rw [hiter]; rfl
    have htoten' : cap1 (reSearch totenPat line) = none := by rw [htoten]; rfl
    have hekin' : cap1 (reSearch ekinPat line) = none := by rw [hekin]; rfl
    have hetotal' : cap1 (reSearch etotalPat line) = none := by rw [hetotal]; rfl
    have hsma := npStore_ok st.arrays.max_atom n q1 hn1 (by omega)
    have hsrm := npStore_ok st.arrays.rms n q2 hn1 (by omega)
    simp only [ionicLine, hiter', hforces, htoten', hekin', hetotal']
    simp only [pyFloatE, hq1, hq2, getStepno, hstep]
    simp only [exbind_ok, expure_ok, hsma, hsrm]
    refine ⟨_, rfl, rfl, ?_, ?_⟩
    · have hlt : n - 1 < st.arrays.max_atom.length := by omega
      simp [List.getD_eq_getElem?_getD, List.getElem?_set_self',
        List.getElem?_eq_getElem hlt]
    · have hlt : n - 1 < st.arrays.rms.length := by omega
      simp [List.getD_eq_getElem?_getD, List.getElem?_set_self',
        List.getElem?_eq_getElem hlt]
  refine ⟨huniv, ?_⟩
  have s1 : ionicLine
      ⟨⟨[0, 0, 0], [0, 0, 0], [0, 0, 0], [0, 0, 0], [0, 0, 0]⟩, none⟩
      (seenLine "Iteration 3") =
      .ok ⟨⟨[0, 0, 0], [0, 0, 0], [0, 0, 0], [0, 0, 0], [0, 0, 0]⟩, some 3⟩ := rfl
  obtain ⟨st', h1, h2, h3, h4⟩ := huniv
    ⟨⟨[0, 0, 0], [0, 0, 0], [0, 0, 0], [0, 0, 0], [0, 0, 0]⟩, some 3⟩
    (seenLine "FORCES: max atom, RMS   0.0123   0.0045") 3 3
    "0.0123".data "0.0045".data (123 / 10000) (45 / 10000)
    rfl (by omega) (by omega) rfl rfl
    (by decide) (by decide) pyFloat_0123 pyFloat_0045
    (by decide) (by decide) (by decide)
  refine ⟨{ time := [1, 2, 3], arrays := st'.arrays }, ?_,
    by simpa using h3, by simpa using h4⟩
  simp only [get_ionic_steps, List.map_cons, List.map_nil, List.foldlM_cons,
    List.foldlM_nil, List.replicate, s1, exbind_ok, expure_ok, h1]
  rw [if_neg (by norm_num : ¬(1 : ℚ) = 0)]
  have htime : (List.range 3).map (fun i => (i : ℚ) + 1) = [1, 2, 3] := by
    simp [List.range_succ]
    norm_num
  rw [htime]
  rfl

set_option maxRecDepth 2000 in
/-- C5 witness: the per-line part of the theorem applied to the concrete
prefixed line `0 FORCES: max atom, RMS   0.0123   0.0045` in a state whose
step counter is 3 with capacity 3. -/
theorem outcar_C5_forces_write_witness :
    reSearch iterPat (seenLine "FORCES: max atom, RMS   0.0123   0.0045") = none ∧
    cap2 (reSearch forcesPat (seenLine "FORCES: max atom, RMS   0.0123   0.0045")) =
      some ("0.0123".data, "0.0045".data) ∧
    ∃ st' : IonicState,
      ionicLine ⟨⟨[0, 0, 0], [0, 0, 0], [0, 0, 0], [0, 0, 0], [0, 0, 0]⟩, some 3⟩
          (seenLine "FORCES: max atom, RMS   0.0123   0.0045") = .ok st' ∧
      st'.stepno = some 3 ∧
      st'.arrays.max_atom.getD 2 0 = 123 / 10000 ∧
      st'.arrays.rms.getD 2 0 = 45 / 10000 := by
  refine ⟨by decide, by decide, ?_⟩
  have h := outcar_C5_forces_write.1
    ⟨⟨[0, 0, 0], [0, 0, 0], [0, 0, 0], [0, 0, 0], [0, 0, 0]⟩, some 3⟩
    (seenLine "FORCES: max atom, RMS   0.0123   0.0045") 3 3
    "0.0123".data "0.0045".data (123 / 10000) (45 / 10000)
    rfl (by omega) (by omega) rfl rfl
    (by decide) (by decide) pyFloat_0123 pyFloat_0045
    (by decide) (by decide) (by decide)
  obtain ⟨st', h1, h2, h3, h4⟩ := h
  exact ⟨st', h1, h2, by simpa using h3, by simpa using h4⟩
